import Mathlib

/-!
Verification of the PDF page-to-Markdown reconstruction pipeline
(`packages/server/increa_reader/pdf_processor.py`).

The Python module is shallowly embedded: every `def` below mirrors one
function (or one dict construction) of `PDFPageProcessor`, operating on
explicit data structures in place of PyMuPDF objects.  Page coordinates
and font sizes (Python floats holding exact document values) are modelled
as rationals; Python ints are `Int`/`Nat`; raised exceptions are
`Except`/early returns as dictated by the `try` blocks of the source.
-/

namespace IncreaReader

/-! ### Decimal rendering of integers (Python `str` / f-string formatting) -/

/-- Decimal digit characters of `n`, most significant first, with a fuel
argument for structural recursion; `natCharsAux fuel n` is correct whenever
`n ≤ fuel`.  `natCharsAux fuel 0 = []`. -/
def natCharsAux : Nat → Nat → List Char
  | _, 0 => []
  | 0, _ + 1 => []
  | fuel + 1, n + 1 => natCharsAux fuel ((n + 1) / 10) ++ [Nat.digitChar ((n + 1) % 10)]

/-- Decimal digit characters of `n`, most significant first (`natChars 0 = []`). -/
def natChars (n : Nat) : List Char := natCharsAux n n

/-- Python `str(n)` for a natural number. -/
def natStr (n : Nat) : String := if n = 0 then "0" else String.mk (natChars n)

/-- Python `str(i)` for an arbitrary integer. -/
def intStr (i : Int) : String := if i < 0 then "-" ++ natStr i.natAbs else natStr i.natAbs

/-- Python `str.strip()` with no argument: drop whitespace from both ends. -/
def py_strip (s : String) : String :=
  String.mk (((s.data.dropWhile Char.isWhitespace).reverse.dropWhile Char.isWhitespace).reverse)

/-- Python `str.endswith(":")`: the last character is a colon. -/
def py_endswith_colon (s : String) : Bool :=
  s.data.getLast? == some ':'

/-! ### Data model

Bounding boxes are `(x0, y0, x1, y1)` rectangles in page coordinates;
`block["bbox"][1]` of the source is the `y0` field here. -/

structure Bbox where
  x0 : ℚ
  y0 : ℚ
  x1 : ℚ
  y1 : ℚ
deriving DecidableEq, Repr, Inhabited

/-- One span of `page.get_text("dict")`: a run of text with font metadata. -/
structure Span where
  text : String
  size : ℚ
  flags : Int
  font : String
deriving DecidableEq, Repr, Inhabited

/-- One line of a text block: its list of spans. -/
structure Line where
  spans : List Span
deriving DecidableEq, Repr, Inhabited

/-- One entry of `text_blocks["blocks"]`; `btype` is `block["type"]`
(`0` marks a text block). -/
structure Block where
  btype : Nat
  bbox : Bbox
  lines : List Line
deriving DecidableEq, Repr, Inhabited

/-- Result of `_get_font_info` when non-empty (the Python function returns
`{}` when the block has no lines or the first line has no spans; that case
is `none` here). -/
structure FontInfo where
  size : ℚ
  flags : Int
  font : String
deriving DecidableEq, Repr, Inhabited

/-- Model of `_get_font_info`: font info of the first span of the first line. -/
def get_font_info (block : Block) : Option FontInfo :=
  match block.lines with
  | [] => none
  | first_line :: _ =>
    match first_line.spans with
    | [] => none
    | first_span :: _ => some ⟨first_span.size, first_span.flags, first_span.font⟩

/-! ### Table Formatter (`_convert_table_to_markdown`, `_extract_tables`) -/

/-- Model of `max_cols = max(len(row) for row in table_data)` (the source only
evaluates this on a non-empty grid; the fold returns `0` on `[]`). -/
def max_cols (table_data : List (List String)) : Nat :=
  (table_data.map List.length).foldl max 0

/-- The padded and trimmed grid: every row is brought to `max_cols` cells
with `""` and each cell is stripped. -/
def processed_data (table_data : List (List String)) : List (List String) :=
  table_data.map fun row =>
    (row ++ List.replicate (max_cols table_data - row.length) "").map py_strip

/-- Model of `_convert_table_to_markdown`: header row, separator row, then data rows,
joined by newlines; the empty grid yields `""`. -/
def convert_table_to_markdown (table_data : List (List String)) : String :=
  if table_data = [] then ""
  else
    match processed_data table_data with
    | [] => ""
    | header :: rest =>
      let header_line := "| " ++ String.intercalate " | " header ++ " |"
      let separator := "|" ++ String.intercalate "|" (header.map fun _ => " --- ") ++ "|"
      let data_rows := rest.map fun row => "| " ++ String.intercalate " | " row ++ " |"
      String.intercalate "\n" (header_line :: separator :: data_rows)

/-- One detected table as handed back by `page.find_tables()` together with
its `extract()`-ed cell grid. -/
structure RawTable where
  bbox : Bbox
  grid : List (List String)
deriving DecidableEq, Repr, Inhabited

/-- One entry of the list built by `_extract_tables`. -/
structure TableEntry where
  id : String
  bbox : Bbox
  markdown : String
  rows : Nat
  cols : Nat
deriving DecidableEq, Repr, Inhabited

/-- Model of `_extract_tables` on the successfully detected tables: builds the entry
dict for each table (`"rows": len(table_data)`,
`"cols": len(table_data[0]) if table_data else 0`). -/
def extract_tables (raw : List RawTable) : List TableEntry :=
  raw.enum.map fun p =>
    { id := "table_" ++ natStr (p.1 + 1)
      bbox := p.2.bbox
      markdown := convert_table_to_markdown p.2.grid
      rows := p.2.grid.length
      cols := match p.2.grid with | [] => 0 | r :: _ => r.length }

/-! ### Image Extractor (`_extract_images`)

One `PageImage` per entry of `page.get_images()`: `n`/`alpha` are the
pixmap's colour and alpha channel counts, `fails := true` models the pixmap
load (or save / bbox lookup) raising for that image, which the source
catches with the single `except` wrapped around the whole loop. -/

structure PageImage where
  n : Nat
  alpha : Nat
  width : Nat
  height : Nat
  bbox : Bbox
  fails : Bool
deriving DecidableEq, Repr, Inhabited

/-- Model of the filename `f"pdf_p{page_num}_img{img_idx + 1}.png"`. -/
def image_filename (page_num : Int) (img_idx : Nat) : String :=
  "pdf_p" ++ intStr page_num ++ "_img" ++ natStr (img_idx + 1) ++ ".png"

/-- One entry of the list built by `_extract_images`. -/
structure ImageEntry where
  id : String
  path : String
  bbox : Bbox
  width : Nat
  height : Nat
  markdown : String
deriving DecidableEq, Repr, Inhabited

/-- Value of `tempfile.gettempdir()` of the host, as a path string. -/
def temp_dir : String := "/tmp"

/-- Loop body of `_extract_images`, also returning the list of filenames
written to temporary storage.  A failing image raises; the exception is
caught by the page-level `except`, so the images already accumulated are
kept and the rest of the list is never processed. -/
def extract_images_go (page_num : Int) : Nat → List PageImage → List ImageEntry × List String
  | _, [] => ([], [])
  | img_idx, img :: rest =>
    if img.fails then ([], [])
    else if (img.n : Int) - (img.alpha : Int) < 4 then
      let img_fname := image_filename page_num img_idx
      let entry : ImageEntry :=
        { id := "image_" ++ natStr (img_idx + 1)
          path := temp_dir ++ "/" ++ img_fname
          bbox := img.bbox
          width := img.width
          height := img.height
          markdown := "![图片" ++ natStr (img_idx + 1) ++ "](/api/temp-image/" ++ img_fname ++ ")" }
      let r := extract_images_go page_num (img_idx + 1) rest
      (entry :: r.1, img_fname :: r.2)
    else
      extract_images_go page_num (img_idx + 1) rest

/-- Model of `_extract_images(page, page_num)`: the produced image entries together
with the filenames persisted to temporary storage. -/
def extract_images (page_num : Int) (imgs : List PageImage) : List ImageEntry × List String :=
  extract_images_go page_num 0 imgs

/-! ### Content Classifier (`_is_math_formula`, `_classify_text`)

The regex probes of `_is_math_formula` are fixed patterns; each is modelled
by an executable matcher on the character list of the text.  `.` in those
patterns matches any character except a newline, exactly as in `re`. -/

/-- Substring occurrence (`re.search` of a fully escaped literal pattern). -/
def substr_hit (pat cs : List Char) : Bool :=
  cs.tails.any fun t => pat.isPrefixOf t

/-- All suffixes of `cs` that start right after a closing brace reachable
without crossing a newline: the ways `\x7d` can end a `.*\x7d` match. -/
def afterCloses : List Char → List (List Char)
  | [] => []
  | c :: cs =>
    if c = '\n' then []
    else if c = '\x7d' then cs :: afterCloses cs
    else afterCloses cs

/-- Matcher for the probes `\x5c\x7b.*\x5c\x7d_\x5c\x7b.*\x5c\x7d` (with
`mid = '_'`, the subscript probe) and its `'^'` superscript sibling. -/
def brace_pair_hit (mid : Char) (cs : List Char) : Bool :=
  cs.tails.any fun t =>
    match t with
    | '\x7b' :: u =>
      (afterCloses u).any fun r =>
        match r with
        | m :: '\x7b' :: v => m == mid && !(afterCloses v).isEmpty
        | _ => false
    | _ => false

/-- Matcher for the probe `\x5c$.*\x5c$`: two dollar signs with no newline
between them. -/
def dollar_hit (cs : List Char) : Bool :=
  cs.tails.any fun t =>
    match t with
    | '$' :: u => (u.takeWhile fun c => c != '\n').any fun c => c == '$'
    | _ => false

/-- The `math_indicators` loop of `_is_math_formula`: true iff any probe
matches the text. -/
def math_indicator_hit (cs : List Char) : Bool :=
  substr_hit "\\frac\x7b".data cs || substr_hit "\\sqrt\x7b".data cs ||
  substr_hit "\\sum\x7b".data cs || substr_hit "\\int\x7b".data cs ||
  brace_pair_hit '_' cs || brace_pair_hit '^' cs ||
  substr_hit "\\alpha".data cs || substr_hit "\\beta".data cs ||
  substr_hit "\\gamma".data cs || substr_hit "\\delta".data cs ||
  substr_hit "\\theta".data cs || substr_hit "\\lambda".data cs ||
  substr_hit "\\mu".data cs || substr_hit "\\pi".data cs ||
  substr_hit "\\sigma".data cs || substr_hit "\\phi".data cs ||
  substr_hit "\\omega".data cs ||
  substr_hit "\\leq".data cs || substr_hit "\\geq".data cs ||
  substr_hit "\\neq".data cs || substr_hit "\\approx".data cs ||
  substr_hit "\\infty".data cs ||
  dollar_hit cs

/-- The fixed Unicode math-symbol set `math_chars` of the source. -/
def math_chars : List Char := "∑∏∫√±≤≥≠∞∂∇∆αβγδεζηθικλμνξοπρστυφχψω".data

/-- Model of `sum(1 for c in text if c in math_chars)`. -/
def math_char_count (cs : List Char) : Nat :=
  cs.countP fun c => math_chars.contains c

/-- Model of `ratio = sum(...) / len(text) if text else 0` (exact rational in place
of the Python float quotient). -/
def math_ratio (text : String) : ℚ :=
  if text.data = [] then 0
  else (math_char_count text.data : ℚ) / (text.data.length : ℚ)

/-- Model of `_is_math_formula` (`0.2` modelled as the rational one fifth, the value
the Python literal denotes up to float rounding). -/
def is_math_formula (text : String) : Bool :=
  math_indicator_hit text.data ||
  (decide (math_ratio text > 0.2) && decide ((py_strip text).length < 200))

/-- Model of `re.match(r'^\s*[-•*]\s+', text)` as a Boolean. -/
def list_bullet_match (cs : List Char) : Bool :=
  match cs.dropWhile Char.isWhitespace with
  | c :: d :: _ => (c == '-' || c == '•' || c == '*') && d.isWhitespace
  | _ => false

/-- Model of `re.match(r'^\s*\d+\.\s+', text)` as a Boolean. -/
def list_number_match (cs : List Char) : Bool :=
  let rest := cs.dropWhile Char.isWhitespace
  let ds := rest.takeWhile Char.isDigit
  !ds.isEmpty &&
    match rest.drop ds.length with
    | '.' :: e :: _ => e.isWhitespace
    | _ => false

/-- The heading branch of `_classify_text`: `font_info` truthy, first-span
size `> 14`, and the trimmed text ends with `":"` or is shorter than 100. -/
def heading_check (fi : Option FontInfo) (text : String) : Bool :=
  match fi with
  | none => false
  | some info =>
    decide (info.size > 14) && (py_endswith_colon (py_strip text) || decide ((py_strip text).length < 100))

/-- Model of `_classify_text`: formula, then heading, then list, else paragraph. -/
def classify_text (text : String) (block : Block) : String :=
  if is_math_formula text then "formula"
  else if heading_check (get_font_info block) text then "heading"
  else if list_bullet_match text.data || list_number_match text.data then "list"
  else "paragraph"

/-! ### Text block processing (`_process_text_blocks`) -/

/-- Model of `fitz.Rect.intersects`: the two rectangles share a non-empty rectangle. -/
def rect_intersects (r s : Bbox) : Bool :=
  decide (max r.x0 s.x0 < min r.x1 s.x1) && decide (max r.y0 s.y0 < min r.y1 s.y1)

/-- Text of a block: spans of each line concatenated, lines joined by
newlines, the result stripped. -/
def block_text (block : Block) : String :=
  py_strip (String.join (block.lines.map fun line =>
    String.join (line.spans.map Span.text) ++ "\n"))

/-- One element of the `content` list built by `_process_text_blocks`. -/
structure TextItem where
  ttype : String
  text : String
  bbox : Bbox
  font_info : Option FontInfo
deriving DecidableEq, Repr, Inhabited

/-- Python's `sorted`/`list.sort` with `key=lambda b: b["bbox"][1]`: a
stable sort by the `y0` coordinate, modelled by insertion sort on the
reflexive key order. -/
def py_sort_by_y {α : Type} (key : α → ℚ) (l : List α) : List α :=
  l.insertionSort fun a b => key a ≤ key b

/-- Model of `_process_text_blocks`: sort blocks top-to-bottom, keep text blocks
outside every table region whose extracted text is non-empty, classify. -/
def process_text_blocks (blocks : List Block) (table_regions : List Bbox) : List TextItem :=
  (py_sort_by_y (fun b => b.bbox.y0) blocks).filterMap fun block =>
    if block.btype ≠ 0 then none
    else if table_regions.any (fun tr => rect_intersects block.bbox tr) then none
    else
      let text := block_text block
      if text = "" then none
      else some { ttype := classify_text text block
                  text := text
                  bbox := block.bbox
                  font_info := get_font_info block }

/-! ### Rendering (`_format_text_content`) and Layout Assembler
(`_assemble_markdown`) -/

/-- The heading-level bracket of `_format_text_content`. -/
def heading_level (font_size : ℚ) : Nat :=
  if font_size > 18 then 1
  else if font_size > 16 then 2
  else if font_size > 14 then 3
  else 4

/-- Model of `_format_text_content`. -/
def format_text_content (item : TextItem) : String :=
  if item.ttype = "heading" then
    let font_size := match item.font_info with | some fi => fi.size | none => 12
    let level := heading_level font_size
    "\n" ++ String.mk (List.replicate level '#') ++ " " ++ py_strip item.text ++ "\n"
  else if item.ttype = "formula" then
    if item.text.data.contains '$' then "\n$$\n" ++ item.text ++ "\n$$\n"
    else "\n`" ++ item.text ++ "`\n"
  else if item.ttype = "list" then "\n" ++ item.text ++ "\n"
  else "\n" ++ item.text ++ "\n"

/-- Tagged union over the three content categories merged by
`_assemble_markdown`; the `order` component is the enumeration index the
source stores alongside each dict. -/
inductive ContentItem where
  | text (item : TextItem) (order : Nat)
  | table (t : TableEntry) (order : Nat)
  | image (i : ImageEntry) (order : Nat)
deriving DecidableEq, Repr

/-- The `bbox` the assembler sorts by. -/
def ContentItem.bbox : ContentItem → Bbox
  | .text item _ => item.bbox
  | .table t _ => t.bbox
  | .image i _ => i.bbox

/-- The combined `all_content` list: texts, then tables, then images, each
tagged with its index in its own list. -/
def all_content (text_content : List TextItem) (tables : List TableEntry)
    (images : List ImageEntry) : List ContentItem :=
  (text_content.enum.map fun p => ContentItem.text p.2 p.1) ++
  (tables.enum.map fun p => ContentItem.table p.2 p.1) ++
  (images.enum.map fun p => ContentItem.image p.2 p.1)

/-- The per-item Markdown fragment of the assembler's render loop. -/
def render_content_item : ContentItem → String
  | .text item _ => format_text_content item
  | .table t _ => "\n" ++ t.markdown ++ "\n"
  | .image i _ => "\n" ++ i.markdown ++ "\n"

/-- Model of `_assemble_markdown`: sort the combined list by `bbox.y0`, render each
item, join with newlines, and append the page footer when the result is
non-blank. -/
def assemble_markdown (text_content : List TextItem) (tables : List TableEntry)
    (images : List ImageEntry) (page_num : Int) : String :=
  let sorted := py_sort_by_y (fun c => c.bbox.y0) (all_content text_content tables images)
  let markdown_parts := sorted.map render_content_item
  let result := String.intercalate "\n" markdown_parts
  if py_strip result ≠ "" then result ++ "\n\n---\n\n*第 " ++ intStr page_num ++ " 页*\n"
  else result

/-! ### Page orchestration (`_extract_page_content`, `render_page_svg`,
the module-level entry points and `close`) -/

/-- One page of the opened document, holding what the PDF engine hands the
processor: its rectangle, raw text blocks, detected tables (already
`extract()`-ed) and embedded images, plus the engine's SVG rendering. -/
structure Page where
  rect : Bbox
  blocks : List Block
  raw_tables : List RawTable
  images : List PageImage
  svg : String
deriving DecidableEq, Repr, Inhabited

/-- The opened document (`fitz.open` result); `page_count` is the length of
`pages`. -/
structure Document where
  pages : List Page
deriving DecidableEq, Repr, Inhabited

/-- The dict returned by `_extract_page_content`. -/
structure PageResult where
  page : Int
  markdown : String
  has_tables : Bool
  has_images : Bool
  estimated_reading_time : Nat
deriving DecidableEq, Repr, Inhabited

/-- Helper for `py_split_whitespace`: accumulate the current word
(reversed) while scanning the character list. -/
def py_words_go (acc : List Char) : List Char → List String
  | [] => if acc.isEmpty then [] else [String.mk acc.reverse]
  | c :: cs =>
    if c.isWhitespace then
      if acc.isEmpty then py_words_go [] cs
      else String.mk acc.reverse :: py_words_go [] cs
    else py_words_go (c :: acc) cs

/-- Python `str.split()` with no argument: split on whitespace runs,
dropping empty pieces. -/
def py_split_whitespace (s : String) : List String :=
  py_words_go [] s.data

/-- The message of the `ValueError` raised for an out-of-range page. -/
def page_range_error (page_num : Int) (page_count : Nat) : String :=
  "Page " ++ intStr page_num ++ " out of range (1-" ++ natStr page_count ++ ")"

/-- Model of `_extract_page_content`: validate the 1-based page number first, then
extract tables, images and text, assemble the Markdown and build the
result dict. -/
def extract_page_content (doc : Document) (page_num : Int) : Except String PageResult :=
  if h : page_num < 1 ∨ page_num > (doc.pages.length : Int) then
    .error (page_range_error page_num doc.pages.length)
  else
    let page := doc.pages.get ⟨(page_num - 1).toNat, by omega⟩
    let tables := extract_tables page.raw_tables
    let table_regions := tables.map TableEntry.bbox
    let images := (extract_images page_num page.images).1
    let text_content := process_text_blocks page.blocks table_regions
    let markdown := assemble_markdown text_content tables images page_num
    .ok { page := page_num
          markdown := markdown
          has_tables := tables.length > 0
          has_images := images.length > 0
          estimated_reading_time := (py_split_whitespace markdown).length / 200 }

/-- Model of `PDFPageProcessor.render_page_svg`: same range validation, then the
engine's SVG for the page. -/
def render_page_svg_content (doc : Document) (page_num : Int) : Except String String :=
  if h : page_num < 1 ∨ page_num > (doc.pages.length : Int) then
    .error (page_range_error page_num doc.pages.length)
  else
    .ok (doc.pages.get ⟨(page_num - 1).toNat, by omega⟩).svg

/-- The processor's resource state: whether the document handle is open. -/
structure ProcState where
  doc_open : Bool
deriving DecidableEq, Repr, Inhabited

/-- Model of `PDFPageProcessor.close`, that is `if self.doc: self.doc.close()`. -/
def close_proc (s : ProcState) : ProcState :=
  if s.doc_open then { doc_open := false } else s

/-- Module-level `extract_page_markdown`: open the processor, run the body
inside `try`, and run `close` in the `finally` clause on both the normal
and the raising path; the returned pair is the body's outcome together
with the processor state after the call. -/
def extract_page_markdown (doc : Document) (page_num : Int) :
    Except String PageResult × ProcState :=
  let processor : ProcState := { doc_open := true }
  let result := extract_page_content doc page_num
  (result, close_proc processor)

/-- Module-level `render_page_svg`, with the same `try/finally` shape. -/
def render_page_svg (doc : Document) (page_num : Int) :
    Except String String × ProcState :=
  let processor : ProcState := { doc_open := true }
  let result := render_page_svg_content doc page_num
  (result, close_proc processor)

/-! ## Theorems

### Decimal rendering lemmas -/

theorem natCharsAux_congr : ∀ n fuel1 fuel2, n ≤ fuel1 → n ≤ fuel2 →
    natCharsAux fuel1 n = natCharsAux fuel2 n := by
  intro n
  induction n using Nat.strong_induction_on with
  | _ n ih =>
    intro fuel1 fuel2 h1 h2
    match n, fuel1, fuel2 with
    | 0, f1, f2 => cases f1 <;> cases f2 <;> rfl
    | m + 1, f1 + 1, f2 + 1 =>
      show natCharsAux f1 ((m + 1) / 10) ++ _ = natCharsAux f2 ((m + 1) / 10) ++ _
      have hdiv : (m + 1) / 10 < m + 1 := Nat.div_lt_self (Nat.succ_pos m) (by omega)
      rw [ih ((m + 1) / 10) hdiv f1 f2 (by omega) (by omega)]

theorem natChars_pos_eq (n : Nat) (h : 0 < n) :
    natChars n = natChars (n / 10) ++ [Nat.digitChar (n % 10)] := by
  match n, h with
  | m + 1, _ =>
    show natCharsAux (m + 1) (m + 1) = _
    have hdiv : (m + 1) / 10 < m + 1 := Nat.div_lt_self (Nat.succ_pos m) (by omega)
    show natCharsAux m ((m + 1) / 10) ++ _ = _
    rw [natCharsAux_congr ((m + 1) / 10) m ((m + 1) / 10) (by omega) (le_refl _)]
    rfl

theorem natChars_ne_nil (n : Nat) (h : 0 < n) : natChars n ≠ [] := by
  rw [natChars_pos_eq n h]
  simp

theorem digitChar_lt_ten_inj : ∀ a < 10, ∀ b < 10,
    Nat.digitChar a = Nat.digitChar b → a = b := by decide

theorem digitChar_lt_ten_isDigit : ∀ a < 10, (Nat.digitChar a).isDigit = true := by decide

theorem natChars_all_digits (n : Nat) : ∀ c ∈ natChars n, c.isDigit = true := by
  induction n using Nat.strong_induction_on with
  | _ n ih =>
    match n with
    | 0 => intro c hc; simp [natChars, natCharsAux] at hc
    | m + 1 =>
      rw [natChars_pos_eq (m + 1) (Nat.succ_pos m)]
      intro c hc
      rcases List.mem_append.mp hc with h | h
      · exact ih ((m + 1) / 10) (Nat.div_lt_self (Nat.succ_pos m) (by omega)) c h
      · rcases List.mem_singleton.mp h with rfl
        exact digitChar_lt_ten_isDigit _ (Nat.mod_lt _ (by omega))

theorem natChars_inj : ∀ a, 0 < a → ∀ b, 0 < b → natChars a = natChars b → a = b := by
  intro a
  induction a using Nat.strong_induction_on with
  | _ a ih =>
    intro ha b hb heq
    rw [natChars_pos_eq a ha, natChars_pos_eq b hb] at heq
    have hlen : (natChars (a / 10)).length = (natChars (b / 10)).length := by
      have := congrArg List.length heq
      simp at this
      omega
    obtain ⟨hquot, hlast⟩ := List.append_inj heq hlen
    have hmod : a % 10 = b % 10 := by
      have := List.head_eq_of_cons_eq hlast
      exact digitChar_lt_ten_inj _ (Nat.mod_lt _ (by omega)) _ (Nat.mod_lt _ (by omega)) this
    rcases Nat.eq_zero_or_pos (a / 10) with hz | hp
    · rcases Nat.eq_zero_or_pos (b / 10) with hz2 | hp2
      · omega
      · exact absurd hquot.symm (by rw [hz]; exact fun h => natChars_ne_nil _ hp2 (by simpa [natChars, natCharsAux] using h))
    · rcases Nat.eq_zero_or_pos (b / 10) with hz2 | hp2
      · exact absurd hquot (by rw [hz2]; exact fun h => natChars_ne_nil _ hp (by simpa [natChars, natCharsAux] using h))
      · have := ih (a / 10) (Nat.div_lt_self ha (by omega)) hp (b / 10) hp2 hquot
        omega

/-- A delimiter character that is not a digit splits a digit run unambiguously:
concatenations `digits ++ d :: rest` determine both parts. -/
theorem digits_delim_inj (d : Char) (hd : d.isDigit = false) :
    ∀ (a : List Char) {b a2 b2 : List Char},
      (∀ c ∈ a, c.isDigit = true) → (∀ c ∈ a2, c.isDigit = true) →
      a ++ d :: b = a2 ++ d :: b2 → a = a2 ∧ b = b2 := by
  intro a
  induction a with
  | nil =>
    intro b a2 b2 _ ha2 heq
    cases a2 with
    | nil => simpa using heq
    | cons c t =>
      have : d = c := by simpa using List.head_eq_of_cons_eq heq
      have : c.isDigit = true := ha2 c (List.mem_cons_self c t)
      rw [← ‹d = c›] at this
      rw [hd] at this
      cases this
  | cons c t ihl =>
    intro b a2 b2 ha ha2 heq
    cases a2 with
    | nil =>
      have : c = d := by simpa using List.head_eq_of_cons_eq heq
      have hcd : c.isDigit = true := ha c (List.mem_cons_self c t)
      rw [‹c = d›, hd] at hcd
      cases hcd
    | cons c2 t2 =>
      have hcc : c = c2 := List.head_eq_of_cons_eq heq
      have htt := List.tail_eq_of_cons_eq heq
      have := ihl (fun x hx => ha x (List.mem_cons_of_mem c hx))
        (fun x hx => ha2 x (List.mem_cons_of_mem c2 hx)) htt
      exact ⟨by rw [hcc, this.1], this.2⟩

/-! ### Stable sorting lemmas for `py_sort_by_y` -/

theorem py_sort_by_y_sorted {α : Type} (key : α → ℚ) (l : List α) :
    List.Sorted (fun a b => key a ≤ key b) (py_sort_by_y key l) := by
  haveI : IsTotal α fun a b => key a ≤ key b := ⟨fun a b => le_total _ _⟩
  haveI : IsTrans α fun a b => key a ≤ key b := ⟨fun _ _ _ h1 h2 => le_trans h1 h2⟩
  exact List.sorted_insertionSort _ l

theorem py_sort_by_y_perm {α : Type} (key : α → ℚ) (l : List α) :
    (py_sort_by_y key l).Perm l :=
  List.perm_insertionSort _ l

theorem orderedInsert_filter_key_eq {α : Type} (key : α → ℚ) (x : α) (q : ℚ)
    (hx : key x = q) (l : List α) :
    ((l.orderedInsert (fun a b => key a ≤ key b) x).filter fun a => decide (key a = q)) =
      x :: (l.filter fun a => decide (key a = q)) := by
  induction l with
  | nil => simp [List.orderedInsert, hx]
  | cons b t ih =>
    by_cases hle : key x ≤ key b
    · simp only [List.orderedInsert, if_pos hle]
      simp [List.filter_cons, hx]
    · have hb : ¬ key b = q := by
        intro hbq
        exact hle (by rw [hx, ← hbq])
      simp only [List.orderedInsert, if_neg hle, List.filter_cons, decide_eq_true_eq,
        if_neg hb]
      exact ih

theorem orderedInsert_filter_key_ne {α : Type} (key : α → ℚ) (x : α) (q : ℚ)
    (hx : ¬ key x = q) (l : List α) :
    ((l.orderedInsert (fun a b => key a ≤ key b) x).filter fun a => decide (key a = q)) =
      l.filter fun a => decide (key a = q) := by
  induction l with
  | nil => simp [List.orderedInsert, hx]
  | cons b t ih =>
    by_cases hle : key x ≤ key b
    · simp [List.orderedInsert, if_pos hle, List.filter_cons, hx]
    · simp only [List.orderedInsert, if_neg hle, List.filter_cons, decide_eq_true_eq]
      by_cases hb : key b = q
      · rw [if_pos hb, if_pos hb, ih]
      · rw [if_neg hb, if_neg hb]
        exact ih

/-- Stability of the modelled Python sort: restricting both the input and
the output to any fixed key value yields identical sublists. -/
theorem py_sort_by_y_stable {α : Type} (key : α → ℚ) (l : List α) (q : ℚ) :
    ((py_sort_by_y key l).filter fun a => decide (key a = q)) =
      l.filter fun a => decide (key a = q) := by
  induction l with
  | nil => rfl
  | cons x t ih =>
    show ((List.orderedInsert _ x (py_sort_by_y key t)).filter _) = _
    by_cases hx : key x = q
    · rw [orderedInsert_filter_key_eq key x q hx, ih]
      simp [List.filter_cons, hx]
    · rw [orderedInsert_filter_key_ne key x q hx, ih]
      simp [List.filter_cons, hx]

/-! ### Table Formatter lemmas -/

theorem foldl_max_init_le (l : List Nat) : ∀ a : Nat, a ≤ l.foldl max a := by
  induction l with
  | nil => intro a; exact le_refl a
  | cons x t ih =>
    intro a
    exact le_trans (Nat.le_max_left a x) (ih (max a x))

theorem le_foldl_max (l : List Nat) (x : Nat) (hx : x ∈ l) : ∀ a : Nat, x ≤ l.foldl max a := by
  induction l with
  | nil => cases hx
  | cons y t ih =>
    intro a
    rcases List.mem_cons.mp hx with rfl | hmem
    · exact le_trans (Nat.le_max_right a x) (foldl_max_init_le t (max a x))
    · exact ih hmem (max a y)

theorem row_length_le_max_cols (table_data : List (List String)) (row : List String)
    (h : row ∈ table_data) : row.length ≤ max_cols table_data :=
  le_foldl_max _ _ (List.mem_map_of_mem List.length h) 0

/-- C3 — Table padding invariant: for a non-empty grid, every padded and
trimmed row has exactly `max_cols` cells, cells are the trimmed source
cells and `""` beyond the source row length, the separator row has
`max_cols` cells, and the rendered Markdown is those cell rows in pipe
syntax; the empty grid renders to the empty string. -/
theorem table_padding_c3 :
    (∀ table_data : List (List String), table_data ≠ [] →
      (∀ row ∈ processed_data table_data, row.length = max_cols table_data) ∧
      (processed_data table_data = table_data.map fun row =>
        row.map py_strip ++ List.replicate (max_cols table_data - row.length) "") ∧
      (∃ header rest, processed_data table_data = header :: rest ∧
        (header.map fun _ => (" --- " : String)).length = max_cols table_data ∧
        convert_table_to_markdown table_data =
          String.intercalate "\n"
            (("| " ++ String.intercalate " | " header ++ " |") ::
             ("|" ++ String.intercalate "|" (header.map fun _ => " --- ") ++ "|") ::
             rest.map fun row => "| " ++ String.intercalate " | " row ++ " |"))) ∧
    convert_table_to_markdown [] = "" := by
  constructor
  · intro table_data hne
    refine ⟨?_, ?_, ?_⟩
    · intro row hrow
      simp only [processed_data, List.mem_map] at hrow
      obtain ⟨src, hsrc, rfl⟩ := hrow
      have hle := row_length_le_max_cols table_data src hsrc
      simp [List.length_append, List.length_replicate]
      omega
    · have h0 : py_strip "" = "" := rfl
      simp only [processed_data, List.map_append, List.map_replicate, h0]
    · match htd : table_data, hne with
      | row0 :: trest, _ =>
        match hpd : processed_data (row0 :: trest) with
        | [] => exact absurd hpd (by simp [processed_data])
        | header :: rest =>
          refine ⟨header, rest, rfl, ?_, ?_⟩
          · have hmem : header ∈ processed_data (row0 :: trest) := by
              rw [hpd]; exact List.mem_cons_self _ _
            have : header.length = max_cols (row0 :: trest) := by
              simp only [processed_data, List.mem_map] at hmem
              obtain ⟨src, hsrc, rfl⟩ := hmem
              have hle := row_length_le_max_cols (row0 :: trest) src hsrc
              simp [List.length_append, List.length_replicate]
              omega
            simpa using this
          · simp only [convert_table_to_markdown, if_neg (by simp : ¬ (row0 :: trest) = []), hpd]
  · rfl

/-- C7 counterexample: for the two-row grid `[["a"], ["b","c"]]` whose widest
row has 2 cells, `_extract_tables` reports `cols = 1` (the first row's
length), not the claimed maximum 2. -/
theorem table_dims_c7_counterexample :
    (extract_tables [⟨⟨0, 0, 1, 1⟩, [["a"], ["b", "c"]]⟩]).map TableEntry.cols = [1] ∧
    max_cols [["a"], ["b", "c"]] = 2 ∧ (1 : Nat) ≠ 2 := by
  refine ⟨?_, by decide, by decide⟩
  rfl

/-- C7 amended: `rowCount` is the number of grid rows, and `colCount` is the
length of the grid's FIRST row (`0` for an empty grid) — not the maximum
row length — even when rows have unequal lengths. -/
theorem table_dims_c7_amended (raw : List RawTable) :
    (extract_tables raw).map (fun t => (t.rows, t.cols)) =
      raw.map fun rt => (rt.grid.length, (rt.grid.headD []).length) := by
  have hgen : ∀ (l : List RawTable) (n : Nat),
      (((List.enumFrom n l).map fun p =>
        ({ id := "table_" ++ natStr (p.1 + 1)
           bbox := p.2.bbox
           markdown := convert_table_to_markdown p.2.grid
           rows := p.2.grid.length
           cols := match p.2.grid with | [] => 0 | r :: _ => r.length } : TableEntry)).map
          fun t => (t.rows, t.cols)) =
        l.map fun rt => (rt.grid.length, (rt.grid.headD []).length) := by
    intro l
    induction l with
    | nil => intro n; rfl
    | cons rt trest ih =>
      intro n
      simp only [List.enumFrom, List.map_cons, ih (n + 1)]
      congr 1
      cases h : rt.grid with
      | nil => simp [h]
      | cons r rs => simp [h]
  exact hgen raw 0

/-- C3 witness: for the concrete ragged grid `[["a"], ["b","c"]]` the padded
first row `["a", ""]` indeed has `max_cols` cells. -/
theorem table_padding_c3_witness :
    (["a", ""] : List String).length = max_cols [["a"], ["b", "c"]] :=
  (table_padding_c3.1 [["a"], ["b", "c"]] (by decide)).1 ["a", ""] (by decide)

/-! ### Layout Assembler -/

/-- C1 — Layout assembly ordering: the combined list of classified text
segments, rendered tables and rendered images is stably sorted by
`bbox.y0` ascending (sorted, a permutation, and order-preserving within
every tie class), the final Markdown renders the items in exactly that
order, and for the synthetic page with a heading at `y0 = 100`, a table at
`y0 = 50` and a paragraph at `y0 = 75`, the table's text precedes the
paragraph's text, which precedes the heading's text. -/
theorem layout_order_c1 :
    (∀ (tc : List TextItem) (tbls : List TableEntry) (imgs : List ImageEntry) (p : Int),
      List.Sorted (fun a b : ContentItem => a.bbox.y0 ≤ b.bbox.y0)
        (py_sort_by_y (fun c : ContentItem => c.bbox.y0) (all_content tc tbls imgs)) ∧
      (py_sort_by_y (fun c : ContentItem => c.bbox.y0) (all_content tc tbls imgs)).Perm
        (all_content tc tbls imgs) ∧
      (∀ q : ℚ,
        ((py_sort_by_y (fun c : ContentItem => c.bbox.y0)
            (all_content tc tbls imgs)).filter fun c => decide (c.bbox.y0 = q)) =
          (all_content tc tbls imgs).filter fun c => decide (c.bbox.y0 = q)) ∧
      assemble_markdown tc tbls imgs p =
        (let result := String.intercalate "\n"
          ((py_sort_by_y (fun c : ContentItem => c.bbox.y0)
            (all_content tc tbls imgs)).map render_content_item)
         if py_strip result ≠ "" then
           result ++ "\n\n---\n\n*第 " ++ intStr p ++ " 页*\n"
         else result)) ∧
    (∃ s1 s2 s3 s4 : String,
      assemble_markdown
        [⟨"heading", "HEAD", ⟨0, 100, 10, 110⟩, some ⟨20, 0, "F"⟩⟩,
         ⟨"paragraph", "PARA", ⟨0, 75, 10, 85⟩, none⟩]
        [⟨"table_1", ⟨0, 50, 10, 60⟩, "TABLE", 1, 1⟩] [] 1 =
      s1 ++ "TABLE" ++ s2 ++ "PARA" ++ s3 ++ "HEAD" ++ s4) := by
  constructor
  · intro tc tbls imgs p
    exact ⟨py_sort_by_y_sorted _ _, py_sort_by_y_perm _ _,
      fun q => py_sort_by_y_stable _ _ q, rfl⟩
  · refine ⟨"\n", "\n\n\n", "\n\n\n# ", "\n\n\n---\n\n*第 1 页*\n", ?_⟩
    decide

/-! ### Page-range validation and resource release -/

/-- C2 — Page-range validation: for a document with `N` pages the
extraction fails with the range error (whose message contains the valid
range `(1-N)`) for every `p < 1` or `p > N`, before any extraction work,
and returns a result (never the range error) for every `p` in `[1, N]`. -/
theorem page_range_c2 (doc : Document) (p : Int) :
    ((p < 1 ∨ p > (doc.pages.length : Int)) →
      extract_page_content doc p = .error (page_range_error p doc.pages.length) ∧
      ∃ pre : List Char, (page_range_error p doc.pages.length).data =
        pre ++ ("(1-" ++ natStr doc.pages.length ++ ")").data) ∧
    (1 ≤ p → p ≤ (doc.pages.length : Int) →
      ∃ r, extract_page_content doc p = .ok r) := by
  constructor
  · intro h
    constructor
    · simp only [extract_page_content]
      rw [dif_pos h]
    · refine ⟨("Page " ++ intStr p ++ " out of range ").data, ?_⟩
      have hsplit : (" out of range (1-" : String).data =
          (" out of range " : String).data ++ ("(1-" : String).data := rfl
      simp [page_range_error, String.data_append, hsplit, List.append_assoc]
  · intro h1 h2
    have hn : ¬ (p < 1 ∨ p > (doc.pages.length : Int)) := by omega
    simp only [extract_page_content]
    rw [dif_neg hn]
    exact ⟨_, rfl⟩

/-- C2 witness: a one-page document rejects page 0 with the range message
and accepts page 1. -/
theorem page_range_c2_witness :
    extract_page_content ⟨[⟨⟨0, 0, 10, 10⟩, [], [], [], "svg"⟩]⟩ 0 =
      .error (page_range_error 0 1) ∧
    (extract_page_content ⟨[⟨⟨0, 0, 10, 10⟩, [], [], [], "svg"⟩]⟩ 1).isOk = true := by
  constructor
  · exact ((page_range_c2 ⟨[⟨⟨0, 0, 10, 10⟩, [], [], [], "svg"⟩]⟩ 0).1 (by norm_num)).1
  · obtain ⟨r, hr⟩ :=
      (page_range_c2 ⟨[⟨⟨0, 0, 10, 10⟩, [], [], [], "svg"⟩]⟩ 1).2 (by norm_num) (by norm_num)
    rw [hr]
    rfl

/-- C10 — document handle always released: for both public entry points the
processor state after the call has the document closed, whether the body
returned a result or raised the out-of-range error. -/
theorem close_c10 (doc : Document) (p : Int) :
    (extract_page_markdown doc p).2.doc_open = false ∧
    (render_page_svg doc p).2.doc_open = false ∧
    (((extract_page_markdown doc p).1.isOk = true ∧
        (render_page_svg doc p).1.isOk = true ∧
        1 ≤ p ∧ p ≤ (doc.pages.length : Int)) ∨
      ((extract_page_markdown doc p).1.isOk = false ∧
        (render_page_svg doc p).1.isOk = false ∧
        (p < 1 ∨ p > (doc.pages.length : Int)))) := by
  refine ⟨rfl, rfl, ?_⟩
  by_cases h : p < 1 ∨ p > (doc.pages.length : Int)
  · right
    refine ⟨?_, ?_, h⟩
    · simp only [extract_page_markdown, extract_page_content]
      rw [dif_pos h]
      rfl
    · simp only [render_page_svg, render_page_svg_content]
      rw [dif_pos h]
      rfl
  · left
    refine ⟨?_, ?_, by omega, by omega⟩
    · simp only [extract_page_markdown, extract_page_content]
      rw [dif_neg h]
      rfl
    · simp only [render_page_svg, render_page_svg_content]
      rw [dif_neg h]
      rfl

/-! ### Injectivity of the rendered numbers and image filenames -/

theorem natStr_data_digits (n : Nat) : ∀ c ∈ (natStr n).data, c.isDigit = true := by
  by_cases h : n = 0
  · subst h
    intro c hc
    have h0 : (natStr 0).data = ['0'] := rfl
    rw [h0, List.mem_singleton] at hc
    subst hc
    decide
  · simp only [natStr, if_neg h]
    exact natChars_all_digits n

theorem natChars_eq_zero_char (b : Nat) (hb : 0 < b) (h : natChars b = ['0']) : False := by
  rw [natChars_pos_eq b hb] at h
  have hnul : natChars (b / 10) = [] := by
    have hlen := congrArg List.length h
    simp only [List.length_append, List.length_cons, List.length_nil] at hlen
    exact List.eq_nil_of_length_eq_zero (by omega)
  rw [hnul, List.nil_append] at h
  have hchar : Nat.digitChar (b % 10) = '0' := by
    simpa using h
  have hdiv : b / 10 = 0 := by
    by_contra hne
    exact natChars_ne_nil (b / 10) (Nat.pos_of_ne_zero hne) hnul
  have hmod : b % 10 = 0 :=
    digitChar_lt_ten_inj (b % 10) (Nat.mod_lt _ (by omega)) 0 (by omega)
      (by rw [hchar]; rfl)
  omega

theorem natStr_data_inj (a b : Nat) (h : (natStr a).data = (natStr b).data) : a = b := by
  by_cases ha : a = 0 <;> by_cases hb : b = 0
  · omega
  · exfalso
    subst ha
    simp only [natStr, if_pos rfl, if_neg hb] at h
    exact natChars_eq_zero_char b (Nat.pos_of_ne_zero hb) (by simpa using h.symm)
  · exfalso
    subst hb
    simp only [natStr, if_pos rfl, if_neg ha] at h
    exact natChars_eq_zero_char a (Nat.pos_of_ne_zero ha) (by simpa using h)
  · simp only [natStr, if_neg ha, if_neg hb] at h
    exact natChars_inj a (Nat.pos_of_ne_zero ha) b (Nat.pos_of_ne_zero hb) h

theorem intStr_nonneg (p : Int) (hp : 0 ≤ p) : intStr p = natStr p.natAbs := by
  simp only [intStr, if_neg (by omega : ¬ p < 0)]

theorem image_filename_data (p : Int) (i : Nat) :
    (image_filename p i).data =
      ['p', 'd', 'f', '_', 'p'] ++
        ((intStr p).data ++ '_' :: 'i' :: 'm' :: 'g' ::
          ((natStr (i + 1)).data ++ '.' :: 'p' :: 'n' :: 'g' :: [])) := by
  simp [image_filename, String.data_append, List.append_assoc]

theorem image_filename_same_page_inj (p : Int) (i j : Nat)
    (h : image_filename p i = image_filename p j) : i = j := by
  have hd := congrArg String.data h
  rw [image_filename_data, image_filename_data] at hd
  have h1 := List.append_cancel_left hd
  have h2 := List.append_cancel_left h1
  simp only [List.cons.injEq, true_and] at h2
  have h3 := (digits_delim_inj '.' (by decide) (natStr (i + 1)).data
    (natStr_data_digits (i + 1)) (natStr_data_digits (j + 1)) h2).1
  have := natStr_data_inj (i + 1) (j + 1) h3
  omega

theorem image_filename_inj (p q : Int) (hp : 0 ≤ p) (hq : 0 ≤ q) (i j : Nat)
    (h : image_filename p i = image_filename q j) : p = q ∧ i = j := by
  have hd := congrArg String.data h
  rw [image_filename_data, image_filename_data] at hd
  have h1 := List.append_cancel_left hd
  rw [intStr_nonneg p hp, intStr_nonneg q hq] at h1
  obtain ⟨hpq, htail⟩ := digits_delim_inj '_' (by decide) (natStr p.natAbs).data
    (natStr_data_digits p.natAbs) (natStr_data_digits q.natAbs) h1
  have hpq2 : p.natAbs = q.natAbs := natStr_data_inj _ _ hpq
  simp only [List.cons.injEq, true_and] at htail
  have h3 := (digits_delim_inj '.' (by decide) (natStr (i + 1)).data
    (natStr_data_digits (i + 1)) (natStr_data_digits (j + 1)) htail).1
  have := natStr_data_inj (i + 1) (j + 1) h3
  omega

theorem image_id_inj (i j : Nat)
    (h : ("image_" ++ natStr (i + 1) : String) = "image_" ++ natStr (j + 1)) : i = j := by
  have hd := congrArg String.data h
  simp only [String.data_append] at hd
  have h1 := List.append_cancel_left hd
  have := natStr_data_inj (i + 1) (j + 1) h1
  omega

/-! ### Image Extractor lemmas -/

theorem extract_images_go_files_mem :
    ∀ (imgs : List PageImage) (p : Int) (i0 : Nat) (f : String),
      f ∈ (extract_images_go p i0 imgs).2 →
      ∃ k, ∃ hk : k < imgs.length, f = image_filename p (i0 + k) ∧
        (imgs.get ⟨k, hk⟩).fails = false ∧
        ((imgs.get ⟨k, hk⟩).n : Int) - ((imgs.get ⟨k, hk⟩).alpha : Int) < 4 := by
  intro imgs
  induction imgs with
  | nil => intro p i0 f hf; cases hf
  | cons img rest ih =>
    intro p i0 f hf
    by_cases hfl : img.fails
    · simp only [extract_images_go, if_pos hfl] at hf
      cases hf
    · by_cases hc : (img.n : Int) - (img.alpha : Int) < 4
      · simp only [extract_images_go, if_neg hfl, if_pos hc] at hf
        rcases List.mem_cons.mp hf with rfl | hmem
        · exact ⟨0, Nat.succ_pos _, by simp, by simpa using hfl, by simpa using hc⟩
        · obtain ⟨k, hk, hfeq, hkfl, hkc⟩ := ih p (i0 + 1) f hmem
          exact ⟨k + 1, Nat.succ_lt_succ hk,
            by rw [hfeq]; congr 1; omega, hkfl, hkc⟩
      · simp only [extract_images_go, if_neg hfl, if_neg hc] at hf
        obtain ⟨k, hk, hfeq, hkfl, hkc⟩ := ih p (i0 + 1) f hf
        exact ⟨k + 1, Nat.succ_lt_succ hk,
          by rw [hfeq]; congr 1; omega, hkfl, hkc⟩

theorem extract_images_go_ids_mem :
    ∀ (imgs : List PageImage) (p : Int) (i0 : Nat) (e : ImageEntry),
      e ∈ (extract_images_go p i0 imgs).1 →
      ∃ k, ∃ hk : k < imgs.length, e.id = "image_" ++ natStr (i0 + k + 1) ∧
        (imgs.get ⟨k, hk⟩).fails = false ∧
        ((imgs.get ⟨k, hk⟩).n : Int) - ((imgs.get ⟨k, hk⟩).alpha : Int) < 4 := by
  intro imgs
  induction imgs with
  | nil => intro p i0 e he; cases he
  | cons img rest ih =>
    intro p i0 e he
    by_cases hfl : img.fails
    · simp only [extract_images_go, if_pos hfl] at he
      cases he
    · by_cases hc : (img.n : Int) - (img.alpha : Int) < 4
      · simp only [extract_images_go, if_neg hfl, if_pos hc] at he
        rcases List.mem_cons.mp he with rfl | hmem
        · exact ⟨0, Nat.succ_pos _, by simp, by simpa using hfl, by simpa using hc⟩
        · obtain ⟨k, hk, heq, hkfl, hkc⟩ := ih p (i0 + 1) e hmem
          exact ⟨k + 1, Nat.succ_lt_succ hk,
            by rw [heq]; congr 2; omega, hkfl, hkc⟩
      · simp only [extract_images_go, if_neg hfl, if_neg hc] at he
        obtain ⟨k, hk, heq, hkfl, hkc⟩ := ih p (i0 + 1) e he
        exact ⟨k + 1, Nat.succ_lt_succ hk,
          by rw [heq]; congr 2; omega, hkfl, hkc⟩

theorem extract_images_go_retain :
    ∀ (imgs : List PageImage) (p : Int) (i0 : Nat) (j : Nat) (hj : j < imgs.length),
      (∀ i ∈ imgs, i.fails = false) →
      ((imgs.get ⟨j, hj⟩).n : Int) - ((imgs.get ⟨j, hj⟩).alpha : Int) < 4 →
      ("image_" ++ natStr (i0 + j + 1)) ∈ (extract_images_go p i0 imgs).1.map ImageEntry.id ∧
      image_filename p (i0 + j) ∈ (extract_images_go p i0 imgs).2 := by
  intro imgs
  induction imgs with
  | nil => intro p i0 j hj; cases hj
  | cons img rest ih =>
    intro p i0 j hj hnofail hcm
    have hfl : img.fails = false := hnofail img (List.mem_cons_self _ _)
    match j with
    | 0 =>
      have hc : (img.n : Int) - (img.alpha : Int) < 4 := by simpa using hcm
      constructor
      · simp [extract_images_go, hfl, if_pos hc]
      · simp [extract_images_go, hfl, if_pos hc]
    | j' + 1 =>
      have hj' : j' < rest.length := Nat.lt_of_succ_lt_succ hj
      have hcm' : ((rest.get ⟨j', hj'⟩).n : Int) - ((rest.get ⟨j', hj'⟩).alpha : Int) < 4 := hcm
      have hrest : ∀ i ∈ rest, i.fails = false :=
        fun i hi => hnofail i (List.mem_cons_of_mem _ hi)
      obtain ⟨hid, hfn⟩ := ih p (i0 + 1) j' hj' hrest hcm'
      by_cases hc : (img.n : Int) - (img.alpha : Int) < 4
      · constructor
        · simp only [extract_images_go, hfl, Bool.false_eq_true, if_false, if_pos hc,
            List.map_cons, List.mem_cons]
          right
          have : i0 + 1 + j' + 1 = i0 + (j' + 1) + 1 := by omega
          rw [← this]
          exact hid
        · simp only [extract_images_go, hfl, Bool.false_eq_true, if_false, if_pos hc,
            List.mem_cons]
          right
          have : i0 + 1 + j' = i0 + (j' + 1) := by omega
          rw [← this]
          exact hfn
      · constructor
        · simp only [extract_images_go, hfl, Bool.false_eq_true, if_false, if_neg hc]
          have : i0 + 1 + j' + 1 = i0 + (j' + 1) + 1 := by omega
          rw [← this]
          exact hid
        · simp only [extract_images_go, hfl, Bool.false_eq_true, if_false, if_neg hc]
          have : i0 + 1 + j' = i0 + (j' + 1) := by omega
          rw [← this]
          exact hfn

/-- C4 — CMYK filtering: an image whose colour-channel count minus
alpha-channel count is at least 4 contributes no entry and no written
file, and (when no extraction failure occurs on the page) every image
with `n - alpha < 4` is retained, with its entry and its file. -/
theorem image_cmyk_c4 (p : Int) (imgs : List PageImage) (j : Nat) (hj : j < imgs.length) :
    (((imgs.get ⟨j, hj⟩).n : Int) - ((imgs.get ⟨j, hj⟩).alpha : Int) ≥ 4 →
      image_filename p j ∉ (extract_images p imgs).2 ∧
      ∀ e ∈ (extract_images p imgs).1, e.id ≠ "image_" ++ natStr (j + 1)) ∧
    ((∀ i ∈ imgs, i.fails = false) →
      ((imgs.get ⟨j, hj⟩).n : Int) - ((imgs.get ⟨j, hj⟩).alpha : Int) < 4 →
      ("image_" ++ natStr (j + 1)) ∈ (extract_images p imgs).1.map ImageEntry.id ∧
      image_filename p j ∈ (extract_images p imgs).2) := by
  constructor
  · intro h4
    constructor
    · intro hmem
      obtain ⟨k, hk, hfeq, _, hkc⟩ := extract_images_go_files_mem imgs p 0 _ hmem
      have hkj : j = 0 + k := image_filename_same_page_inj p j (0 + k) hfeq
      have : k = j := by omega
      subst this
      omega
    · intro e hmem heq
      obtain ⟨k, hk, hideq, _, hkc⟩ := extract_images_go_ids_mem imgs p 0 _ hmem
      rw [heq] at hideq
      have hkj : j = 0 + k + 1 - 1 := by
        have := image_id_inj j (0 + k) (by simpa using hideq)
        omega
      have : k = j := by omega
      subst this
      omega
  · intro hnofail hlt
    have h := extract_images_go_retain imgs p 0 j hj hnofail hlt
    simpa using h

/-- C4 witness: a 4-channel no-alpha image (CMYK) on page 1 yields no file
and no entry; a 3-channel image is retained. -/
theorem image_cmyk_c4_witness :
    (image_filename 1 0 ∉ (extract_images 1 [⟨5, 1, 2, 2, ⟨0, 0, 1, 1⟩, false⟩]).2) ∧
    (("image_" ++ natStr (0 + 1)) ∈
      (extract_images 1 [⟨3, 0, 2, 2, ⟨0, 0, 1, 1⟩, false⟩]).1.map ImageEntry.id) :=
  ⟨((image_cmyk_c4 1 [⟨5, 1, 2, 2, ⟨0, 0, 1, 1⟩, false⟩] 0 (by decide)).1 (by decide)).1,
   ((image_cmyk_c4 1 [⟨3, 0, 2, 2, ⟨0, 0, 1, 1⟩, false⟩] 0 (by decide)).2
     (by decide) (by decide)).1⟩

/-- C5 counterexample: with a failing first image followed by a healthy
non-CMYK second image, the extractor returns no images at all — the claim
that images after the failing one are unaffected fails here, since the
second image's own extraction succeeds (as the second conjunct shows when
it is processed alone). -/
theorem image_failure_c5_counterexample :
    (extract_images 1 [⟨3, 0, 2, 2, ⟨0, 0, 1, 1⟩, true⟩,
      ⟨3, 1, 2, 2, ⟨0, 0, 1, 1⟩, false⟩]).1 = [] ∧
    (extract_images 1 [⟨3, 1, 2, 2, ⟨0, 0, 1, 1⟩, false⟩]).1.length = 1 ∧
    (⟨3, 1, 2, 2, ⟨0, 0, 1, 1⟩, false⟩ : PageImage).fails = false := by
  refine ⟨rfl, rfl, rfl⟩

theorem extract_images_go_take :
    ∀ (k : Nat) (imgs : List PageImage) (p : Int) (i0 : Nat) (hk : k < imgs.length),
      (imgs.get ⟨k, hk⟩).fails = true →
      (∀ j (hj : j < k), (imgs.get ⟨j, Nat.lt_trans hj hk⟩).fails = false) →
      extract_images_go p i0 imgs = extract_images_go p i0 (imgs.take k) := by
  intro k
  induction k with
  | zero =>
    intro imgs p i0 hk hfail _
    cases imgs with
    | nil => exact absurd hk (by simp)
    | cons img rest =>
      have : img.fails = true := hfail
      simp [extract_images_go, this]
  | succ k' ih =>
    intro imgs p i0 hk hfail hbefore
    cases imgs with
    | nil => exact absurd hk (by simp)
    | cons img rest =>
      have hfl : img.fails = false := hbefore 0 (Nat.succ_pos k')
      have hk' : k' < rest.length := Nat.lt_of_succ_lt_succ hk
      have hfail' : (rest.get ⟨k', hk'⟩).fails = true := hfail
      have hbefore' : ∀ j (hj : j < k'), (rest.get ⟨j, Nat.lt_trans hj hk'⟩).fails = false :=
        fun j hj => hbefore (j + 1) (Nat.succ_lt_succ hj)
      have hrec := ih rest p (i0 + 1) hk' hfail' hbefore'
      by_cases hc : (img.n : Int) - (img.alpha : Int) < 4
      · simp only [List.take_succ_cons, extract_images_go, hfl, Bool.false_eq_true,
          if_false, if_pos hc, hrec]
      · simp only [List.take_succ_cons, extract_images_go, hfl, Bool.false_eq_true,
          if_false, if_neg hc, hrec]

/-- C5 amended: when the extraction of image `k` raises (and no earlier
image does), the page-level call does not abort — it returns exactly the
result of processing the images before the failing one; the failing image
and every later image are skipped, while every non-CMYK image before the
failure is still emitted. -/
theorem image_failure_c5_amended (p : Int) (imgs : List PageImage) (k : Nat)
    (hk : k < imgs.length) (hfail : (imgs.get ⟨k, hk⟩).fails = true)
    (hbefore : ∀ j (hj : j < k), (imgs.get ⟨j, Nat.lt_trans hj hk⟩).fails = false) :
    extract_images p imgs = extract_images p (imgs.take k) ∧
    (∀ j (hj : j < k),
      ((imgs.get ⟨j, Nat.lt_trans hj hk⟩).n : Int) -
          ((imgs.get ⟨j, Nat.lt_trans hj hk⟩).alpha : Int) < 4 →
      ("image_" ++ natStr (j + 1)) ∈ (extract_images p imgs).1.map ImageEntry.id) := by
  have htake := extract_images_go_take k imgs p 0 hk hfail hbefore
  refine ⟨htake, ?_⟩
  intro j hj hcm
  have hjt : j < (imgs.take k).length := by
    rw [List.length_take]
    omega
  have hget : (imgs.take k).get ⟨j, hjt⟩ = imgs.get ⟨j, Nat.lt_trans hj hk⟩ := by
    simp [List.getElem_take]
  have hnofail : ∀ i ∈ imgs.take k, i.fails = false := by
    intro i hi
    obtain ⟨idx, hidx, hidxe⟩ := List.mem_iff_getElem.mp hi
    have hidxk : idx < k := by
      have := hidx
      rw [List.length_take] at this
      omega
    have : (imgs.take k)[idx] = imgs[idx] := List.getElem_take _
    rw [← hidxe, this]
    exact hbefore idx hidxk
  have h := (extract_images_go_retain (imgs.take k) p 0 j hjt hnofail
    (by rw [hget]; exact hcm)).1
  show ("image_" ++ natStr (j + 1)) ∈ (extract_images_go p 0 imgs).1.map ImageEntry.id
  rw [htake]
  simpa using h

/-- C5 witness: page 1 whose first image raises — the result equals the
result of processing the empty prefix. -/
theorem image_failure_c5_witness :
    extract_images 1 [⟨3, 0, 2, 2, ⟨0, 0, 1, 1⟩, true⟩] =
      extract_images 1 ([⟨3, 0, 2, 2, ⟨0, 0, 1, 1⟩, true⟩].take 0) :=
  (image_failure_c5_amended 1 [⟨3, 0, 2, 2, ⟨0, 0, 1, 1⟩, true⟩] 0 (by decide) (by decide)
    (fun j hj => absurd hj (Nat.not_lt_zero j))).1

/-- C6 counterexample: filenames carry no random suffix — two invocations
that process the same page with the same image write the very same,
overlapping (hence not disjoint) filename set. -/
theorem image_filename_c6_counterexample :
    (extract_images 1 [⟨3, 0, 2, 2, ⟨0, 0, 1, 1⟩, false⟩]).2 = ["pdf_p1_img1.png"] ∧
    ¬ List.Disjoint (extract_images 1 [⟨3, 0, 2, 2, ⟨0, 0, 1, 1⟩, false⟩]).2
        (extract_images 1 [⟨3, 0, 2, 2, ⟨0, 0, 1, 1⟩, false⟩]).2 := by
  constructor
  · rfl
  · intro h
    exact h (a := "pdf_p1_img1.png") (by decide) (by decide)

/-- C6 amended: each temporary filename is fully determined by the page
number and the image index (no random component), so invocations
processing different pages write disjoint filename sets, while repeated
processing of the same page rewrites the identical names. -/
theorem image_filename_c6_amended (p q : Int) (hp : 1 ≤ p) (hq : 1 ≤ q) (hpq : p ≠ q)
    (imgs1 imgs2 : List PageImage) :
    List.Disjoint (extract_images p imgs1).2 (extract_images q imgs2).2 ∧
    (∀ f ∈ (extract_images p imgs1).2, ∃ k, k < imgs1.length ∧ f = image_filename p k) := by
  constructor
  · intro f h1 h2
    obtain ⟨k1, hk1, hf1, _, _⟩ := extract_images_go_files_mem imgs1 p 0 f h1
    obtain ⟨k2, hk2, hf2, _, _⟩ := extract_images_go_files_mem imgs2 q 0 f h2
    rw [hf1] at hf2
    exact hpq (image_filename_inj p q (by omega) (by omega) _ _ hf2).1
  · intro f hf
    obtain ⟨k, hk, hfeq, _, _⟩ := extract_images_go_files_mem imgs1 p 0 f hf
    exact ⟨0 + k, by omega, hfeq⟩

/-- C6 witness: pages 1 and 2 processing the same single image write
disjoint filename sets. -/
theorem image_filename_c6_witness :
    List.Disjoint (extract_images 1 [⟨3, 0, 2, 2, ⟨0, 0, 1, 1⟩, false⟩]).2
      (extract_images 2 [⟨3, 0, 2, 2, ⟨0, 0, 1, 1⟩, false⟩]).2 :=
  (image_filename_c6_amended 1 2 (by decide) (by decide) (by decide)
    [⟨3, 0, 2, 2, ⟨0, 0, 1, 1⟩, false⟩] [⟨3, 0, 2, 2, ⟨0, 0, 1, 1⟩, false⟩]).1

/-! ### Content Classifier theorems -/

theorem math_ratio_eq (text : String) :
    math_ratio text = (math_char_count text.data : ℚ) / (text.data.length : ℚ) := by
  by_cases he : text.data = []
  · rw [math_ratio, if_pos he, he]
    simp [math_char_count]
  · rw [math_ratio, if_neg he]

theorem is_math_formula_of_ratio_le (text : String)
    (h1 : math_indicator_hit text.data = false)
    (h2 : ¬ ((math_char_count text.data : ℚ) / (text.data.length : ℚ) > 0.2)) :
    is_math_formula text = false := by
  have h3 : decide (math_ratio text > 0.2) = false := by
    rw [math_ratio_eq]
    exact decide_eq_false h2
  rw [is_math_formula, h1, h3]
  rfl

/-- C8 — math-symbol-ratio formula classification: when no regex probe
matches, the classifier marks a block as formula exactly when the ratio of
math-symbol characters to all characters of the text exceeds 0.2 and the
stripped text is shorter than 200 characters; the ratio the source
computes is that quotient. -/
theorem formula_class_c8 (text : String) (block : Block)
    (hreg : math_indicator_hit text.data = false) :
    (classify_text text block = "formula" ↔
      ((math_char_count text.data : ℚ) / (text.data.length : ℚ) > 0.2 ∧
        (py_strip text).length < 200)) ∧
    math_ratio text = (math_char_count text.data : ℚ) / (text.data.length : ℚ) := by
  have hratio : math_ratio text = (math_char_count text.data : ℚ) / (text.data.length : ℚ) := by
    by_cases he : text.data = []
    · rw [math_ratio, if_pos he, he]
      simp [math_char_count]
    · rw [math_ratio, if_neg he]
  refine ⟨?_, hratio⟩
  have hm : is_math_formula text =
      (decide (math_ratio text > 0.2) && decide ((py_strip text).length < 200)) := by
    simp [is_math_formula, hreg]
  constructor
  · intro hcls
    by_cases hf : is_math_formula text
    · rw [hm] at hf
      simp only [Bool.and_eq_true, decide_eq_true_eq] at hf
      exact ⟨hratio ▸ hf.1, hf.2⟩
    · exfalso
      rw [classify_text, if_neg hf] at hcls
      split_ifs at hcls <;> exact absurd hcls (by decide)
  · intro ⟨h1, h2⟩
    have hf : is_math_formula text = true := by
      rw [hm]
      simp only [Bool.and_eq_true, decide_eq_true_eq]
      exact ⟨hratio ▸ h1, h2⟩
    rw [classify_text, if_pos hf]

/-- C8 witness: in `"∑ x"` one of three characters is a math symbol
(ratio one third) and no regex probe matches, so the block is a formula. -/
theorem formula_class_c8_witness :
    classify_text "∑ x" ⟨0, ⟨0, 0, 1, 1⟩, []⟩ = "formula" := by
  refine (formula_class_c8 "∑ x" ⟨0, ⟨0, 0, 1, 1⟩, []⟩ (by decide)).1.mpr ⟨?_, by decide⟩
  have hc : math_char_count "∑ x".data = 1 := by decide
  have hl : "∑ x".data.length = 3 := by decide
  rw [hc, hl]
  norm_num

theorem heading_level_gt14 (s : ℚ) (h : s > 14) :
    heading_level s ≠ 4 ∧
      (heading_level s = 1 ∨ heading_level s = 2 ∨ heading_level s = 3) := by
  by_cases h1 : s > 18
  · have hl : heading_level s = 1 := by rw [heading_level, if_pos h1]
    rw [hl]
    exact ⟨by decide, Or.inl rfl⟩
  · by_cases h2 : s > 16
    · have hl : heading_level s = 2 := by rw [heading_level, if_neg h1, if_pos h2]
      rw [hl]
      exact ⟨by decide, Or.inr (Or.inl rfl)⟩
    · have hl : heading_level s = 3 := by rw [heading_level, if_neg h1, if_neg h2, if_pos h]
      rw [hl]
      exact ⟨by decide, Or.inr (Or.inr rfl)⟩

/-- Rendering of an item already classified as heading. -/
theorem format_heading (item : TextItem) (h : item.ttype = "heading") (fi : FontInfo)
    (hfi : item.font_info = some fi) :
    format_text_content item =
      "\n" ++ String.mk (List.replicate (heading_level fi.size) '#') ++ " " ++
        py_strip item.text ++ "\n" := by
  rw [format_text_content, if_pos h, hfi]

/-- C9 — rendered heading levels never reach 4: every item the text
processor classifies as a heading carries a first-span font size strictly
greater than 14, so the render-time level is 1, 2 or 3 and the level-4
branch is unreachable; blocks without font info are never headings. -/
theorem heading_level_c9 :
    (∀ (blocks : List Block) (regions : List Bbox) (item : TextItem),
      item ∈ process_text_blocks blocks regions → item.ttype = "heading" →
      ∃ fi, item.font_info = some fi ∧ fi.size > 14 ∧
        heading_level fi.size ≠ 4 ∧
        (heading_level fi.size = 1 ∨ heading_level fi.size = 2 ∨ heading_level fi.size = 3) ∧
        format_text_content item =
          "\n" ++ String.mk (List.replicate (heading_level fi.size) '#') ++ " " ++
            py_strip item.text ++ "\n") ∧
    (∀ (text : String) (block : Block), get_font_info block = none →
      classify_text text block ≠ "heading") := by
  constructor
  · intro blocks regions item hmem htype
    obtain ⟨block, hbmem, hf⟩ := List.mem_filterMap.mp hmem
    by_cases hb0 : block.btype ≠ 0
    · rw [if_pos hb0] at hf
      cases hf
    · rw [if_neg hb0] at hf
      by_cases htab : regions.any fun tr => rect_intersects block.bbox tr
      · rw [if_pos htab] at hf
        cases hf
      · rw [if_neg htab] at hf
        by_cases hemp : block_text block = ""
        · rw [if_pos hemp] at hf
          cases hf
        · rw [if_neg hemp] at hf
          obtain rfl := Option.some.inj hf
          have htype0 : classify_text (block_text block) block = "heading" := htype
          have hwork := htype0
          rw [classify_text] at hwork
          by_cases hform : is_math_formula (block_text block)
          · rw [if_pos hform] at hwork
            exact absurd hwork (by decide)
          · rw [if_neg hform] at hwork
            by_cases hhead : heading_check (get_font_info block) (block_text block)
            · cases hfi : get_font_info block with
              | none =>
                rw [hfi] at hhead
                have hfalse : heading_check none (block_text block) = false := rfl
                rw [hfalse] at hhead
                cases hhead
              | some info =>
                rw [hfi] at hhead
                simp only [heading_check, Bool.and_eq_true, decide_eq_true_eq] at hhead
                exact ⟨info, rfl, hhead.1, (heading_level_gt14 info.size hhead.1).1,
                  (heading_level_gt14 info.size hhead.1).2,
                  format_heading _ htype0 info rfl⟩
            · rw [if_neg hhead] at hwork
              split_ifs at hwork <;> exact absurd hwork (by decide)
  · intro text block hnone heq
    rw [classify_text, hnone] at heq
    by_cases hform : is_math_formula text
    · rw [if_pos hform] at heq
      exact absurd heq (by decide)
    · rw [if_neg hform] at heq
      have hffalse : heading_check none text = false := rfl
      rw [hffalse] at heq
      simp only [Bool.false_eq_true, if_false] at heq
      split_ifs at heq <;> exact absurd heq (by decide)

/-- C9 witness: a text block whose first span has size 20 is classified as
a heading and renders at level 1. -/
theorem heading_level_c9_witness :
    ∃ fi, (⟨"heading", "Title", ⟨0, 0, 1, 1⟩,
        some ⟨20, 0, "F"⟩⟩ : TextItem).font_info = some fi ∧
      fi.size > 14 ∧ heading_level fi.size ≠ 4 ∧
      (heading_level fi.size = 1 ∨ heading_level fi.size = 2 ∨ heading_level fi.size = 3) ∧
      format_text_content ⟨"heading", "Title", ⟨0, 0, 1, 1⟩, some ⟨20, 0, "F"⟩⟩ =
        "\n" ++ String.mk (List.replicate (heading_level fi.size) '#') ++ " " ++
          py_strip "Title" ++ "\n" := by
  have hreg : math_indicator_hit "Title".data = false := by decide
  have hrat : ¬ ((math_char_count "Title".data : ℚ) / ("Title".data.length : ℚ) > 0.2) := by
    have hc : math_char_count "Title".data = 0 := by decide
    have hl : "Title".data.length = 5 := by decide
    rw [hc, hl]
    norm_num
  have hmf : is_math_formula "Title" = false := is_math_formula_of_ratio_le _ hreg hrat
  have hchk : heading_check
      (get_font_info ⟨0, ⟨0, 0, 1, 1⟩, [⟨[⟨"Title", 20, 0, "F"⟩]⟩]⟩) "Title" = true := by
    decide
  have hcls : classify_text "Title" ⟨0, ⟨0, 0, 1, 1⟩, [⟨[⟨"Title", 20, 0, "F"⟩]⟩]⟩ =
      "heading" := by
    rw [classify_text, hmf]
    simp only [Bool.false_eq_true, if_false]
    rw [if_pos hchk]
  have hbt : block_text ⟨0, ⟨0, 0, 1, 1⟩, [⟨[⟨"Title", 20, 0, "F"⟩]⟩]⟩ = "Title" := by decide
  have hproc : process_text_blocks [⟨0, ⟨0, 0, 1, 1⟩, [⟨[⟨"Title", 20, 0, "F"⟩]⟩]⟩] [] =
      [⟨"heading", "Title", ⟨0, 0, 1, 1⟩, some ⟨20, 0, "F"⟩⟩] := by
    rw [process_text_blocks]
    have hsort : py_sort_by_y (fun b : Block => b.bbox.y0)
        [⟨0, ⟨0, 0, 1, 1⟩, [⟨[⟨"Title", 20, 0, "F"⟩]⟩]⟩] =
        [⟨0, ⟨0, 0, 1, 1⟩, [⟨[⟨"Title", 20, 0, "F"⟩]⟩]⟩] := rfl
    rw [hsort, List.filterMap_cons]
    simp only [hbt, hcls]
    rw [if_neg (by decide), if_neg (by decide), if_neg (by decide : ¬ ("Title" : String) = "")]
    rfl
  exact heading_level_c9.1 [⟨0, ⟨0, 0, 1, 1⟩, [⟨[⟨"Title", 20, 0, "F"⟩]⟩]⟩] []
    ⟨"heading", "Title", ⟨0, 0, 1, 1⟩, some ⟨20, 0, "F"⟩⟩
    (by rw [hproc]; exact List.mem_singleton_self _) rfl

end IncreaReader
